import Mathlib

/-!
Verification of the Veta note-store repository.

The repository ships the relational schema (`src/schema/migrations/0001_initial.sql`),
a later migration adding a `references` column, and HTTP tool adapters
(`src/examples/agents-sdk/src/tools.ts`, `src/examples/agent-sdk/src/tools.ts`).
The note-store service handlers themselves are not part of the repository
sources, so they are modelled from the specification; each such definition is
marked `Modelled from the spec:`. Adapter code present in the sources is
embedded directly.
-/

namespace Veta

/-- A row of the `notes` table (`0001_initial.sql` lines 4-10): `id`, `title`,
`body`, `created_at`, `updated_at`. Timestamps are modelled as naturals. -/
structure Note where
  id : Nat
  title : String
  body : String
  created_at : Nat
  updated_at : Nat
deriving Repr, DecidableEq

/-- A row of the `tags` table (`0001_initial.sql` lines 12-15): `id`,
`name` (UNIQUE). -/
structure Tag where
  id : Nat
  name : String
deriving Repr, DecidableEq

/-- The relational store: the three tables of `0001_initial.sql` plus the
AUTOINCREMENT counters for the two `INTEGER PRIMARY KEY AUTOINCREMENT`
columns. `noteTags` holds `(note_id, tag_id)` pairs (table `note_tags`). -/
structure Store where
  notes : List Note
  tags : List Tag
  noteTags : List (Nat × Nat)
  nextNoteId : Nat
  nextTagId : Nat
deriving Repr, DecidableEq

/-- The freshly migrated empty store; AUTOINCREMENT ids start at 1. -/
def Store.empty : Store :=
  { notes := [], tags := [], noteTags := [], nextNoteId := 1, nextTagId := 1 }

/-- The name of the tag row with id `tid`, if present. -/
def tagNameOf (s : Store) (tid : Nat) : Option String :=
  (s.tags.find? (fun t => t.id = tid)).map Tag.name

/-- The tag ids associated with note `nid`, in association-row order. -/
def linkedTagIds (s : Store) (nid : Nat) : List Nat :=
  (s.noteTags.filter (fun p => p.1 = nid)).map Prod.snd

/-- The tag names associated with note `nid`, in association-row order
(the join of `note_tags` with `tags`). -/
def noteTagNames (s : Store) (nid : Nat) : List String :=
  (linkedTagIds s nid).filterMap (tagNameOf s)

/-- Modelled from the spec: "for each tag name, find-or-create the tag row"
(§4.1 Create note). Returns the tag id and the possibly-extended store. -/
def findOrCreateTag (s : Store) (name : String) : Nat × Store :=
  match s.tags.find? (fun t => t.name = name) with
  | some t => (t.id, s)
  | none =>
      (s.nextTagId,
        { s with tags := s.tags ++ [{ id := s.nextTagId, name := name }],
                 nextTagId := s.nextTagId + 1 })

/-- Modelled from the spec: one tag of a create request (§4.1 Create note):
find-or-create the tag row, "then insert the association, ignoring duplicates
within the same request" — the row is skipped when it already exists. -/
def linkOne (nid : Nat) (st : Store) (nm : String) : Store :=
  let r := findOrCreateTag st nm
  if (nid, r.1) ∈ r.2.noteTags then r.2
  else { r.2 with noteTags := r.2.noteTags ++ [(nid, r.1)] }

/-- Modelled from the spec: links each tag name of a create request in order
to note `nid` (§4.1 Create note). -/
def addTagLinks (s : Store) (nid : Nat) (names : List String) : Store :=
  names.foldl (linkOne nid) s

/-- Modelled from the spec: Create note (§4.1). `title` is required and
non-empty, `body` is required but may be the empty string; the note row is
inserted with the current timestamp for both `created_at` and `updated_at`,
tag rows are found-or-created and associations inserted. A request field that
is absent from the JSON body is `none`. Returns the new note id and the new
store, or a validation error. -/
def createNote (s : Store) (title body : Option String) (tags : List String)
    (now : Nat) : Except String (Nat × Store) :=
  match title with
  | none => .error "title is required"
  | some t =>
      if t = "" then .error "title must be non-empty"
      else
        match body with
        | none => .error "body is required"
        | some b =>
            let nid := s.nextNoteId
            let s1 : Store :=
              { s with
                  notes := s.notes ++
                    [{ id := nid, title := t, body := b,
                       created_at := now, updated_at := now }],
                  nextNoteId := nid + 1 }
            .ok (nid, addTagLinks s1 nid tags)

/-- Modelled from the spec: Show note (§4.1): point lookup by primary key
joined with its tag names; unknown id yields `none` (not-found). -/
def showNote (s : Store) (nid : Nat) : Option (String × String × List String) :=
  (s.notes.find? (fun n => n.id = nid)).map
    (fun n => (n.title, n.body, noteTagNames s nid))

/-- Modelled from the spec: Delete note (§4.1): remove the note row; the
`ON DELETE CASCADE` of `note_tags.note_id` (`0001_initial.sql` line 18)
removes its association rows; tag rows are left in place. Returns whether the
id was found, and the new store. -/
def deleteNote (s : Store) (nid : Nat) : Bool × Store :=
  (s.notes.any (fun n => n.id = nid),
    { s with
        notes := s.notes.filter (fun n => n.id ≠ nid),
        noteTags := s.noteTags.filter (fun p => p.1 ≠ nid) })

/-- Modelled from the spec: tag filtering for list (§4.1): "return only notes
associated with *all* listed tags"; `none` means no filter. -/
def matchesFilter (s : Store) (filt : Option (List String)) (n : Note) : Bool :=
  match filt with
  | none => true
  | some names => names.all (fun nm => (noteTagNames s n.id).contains nm)

/-- Ordering used by List notes: `updated_at` descending. -/
def updDesc (a b : Note) : Prop := b.updated_at ≤ a.updated_at

instance : DecidableRel updDesc := fun a b => Nat.decLe b.updated_at a.updated_at

instance : IsTotal Note updDesc := ⟨fun a b => Nat.le_total b.updated_at a.updated_at⟩

instance : IsTrans Note updDesc := ⟨fun _ _ _ h1 h2 => Nat.le_trans h2 h1⟩

/-- Modelled from the spec: List notes (§4.1): when a tag filter is given
return only the matching notes, ordered by `updated_at` descending; otherwise
return all notes in the same order. -/
def listNotes (s : Store) (filt : Option (List String)) : List Note :=
  List.insertionSort updDesc (s.notes.filter (matchesFilter s filt))

/-- Modelled from the spec: List tags (§4.1): every tag with the count of
associated notes (computed via the association join). -/
def tagsWithCounts (s : Store) : List (String × Nat) :=
  s.tags.map (fun t => (t.name, (s.noteTags.filter (fun p => p.2 = t.id)).length))

/-- `needle` occurs as a substring of `hay` (empty needle always occurs). -/
def containsSub (hay needle : String) : Bool :=
  needle = "" || (hay.splitOn needle).length ≠ 1

/-- Modelled from the spec: "Malformed pattern → client error" (§4.1 Search).
The spec fixes no regex dialect; validity is modelled as balanced parenthesis
nesting in the pattern. -/
def patternValid (q : String) : Bool :=
  (q.toList.foldl
    (fun acc c =>
      match acc with
      | none => none
      | some d =>
          if c = '(' then some (d + 1)
          else if c = ')' then (if d = 0 then none else some (d - 1))
          else some d)
    (some 0)) = some 0

/-- A request on the HTTP surface of the service (§6): create, list with
optional tag filter, point lookup, pattern search, tag listing, delete. An
absent JSON field of a create body is `none`. -/
inductive Request where
  | create (title body : Option String) (tags : List String)
  | list (tags : Option (List String))
  | showReq (id : Nat)
  | grep (q : String) (tags : Option (List String))
  | listTags
  | delete (id : Nat)
deriving Repr, DecidableEq

/-- The service's response: success payloads, a not-found signal, or a
client-visible validation error. -/
inductive Response where
  | created (id : Nat)
  | noteList (ids : List Nat)
  | note (title body : String) (tags : List String)
  | tagList (ts : List (String × Nat))
  | deleted
  | notFound
  | clientError (msg : String)
deriving Repr, DecidableEq

/-- Modelled from the spec: the service request handler (§4.1, §7). A
validation error is rejected immediately with a client-visible message and no
write; otherwise the operation runs against the store. `now` is the request
timestamp. -/
def handle (s : Store) (now : Nat) (req : Request) : Response × Store :=
  match req with
  | .create title body tags =>
      match createNote s title body tags now with
      | .error msg => (.clientError msg, s)
      | .ok r => (.created r.1, r.2)
  | .list tf => (.noteList ((listNotes s tf).map Note.id), s)
  | .showReq nid =>
      match showNote s nid with
      | none => (.notFound, s)
      | some r => (.note r.1 r.2.1 r.2.2, s)
  | .grep q tf =>
      if patternValid q then
        (.noteList (((s.notes.filter (matchesFilter s tf)).filter
          (fun n => containsSub n.title q || containsSub n.body q)).map Note.id), s)
      else (.clientError "invalid pattern", s)
  | .listTags => (.tagList (tagsWithCounts s), s)
  | .delete nid =>
      let r := deleteNote s nid
      (if r.1 then .deleted else .notFound, r.2)

/-- The requests the spec classifies as validation errors (§7): missing or
empty title, missing body, malformed search pattern. -/
def isBadRequest : Request → Bool
  | .create title body _ => title = none || title = some "" || body = none
  | .grep q _ => !patternValid q
  | _ => false

/-- Store well-formedness: primary-key uniqueness for notes and tags, the
UNIQUE constraint on `tags.name` (`0001_initial.sql` line 14), AUTOINCREMENT
counters above every existing id, association primary-key uniqueness, and
both foreign keys of `note_tags` (lines 18-19). -/
structure Store.wf (s : Store) : Prop where
  notesNodup : (s.notes.map Note.id).Nodup
  notesLt : ∀ n ∈ s.notes, n.id < s.nextNoteId
  tagIdsNodup : (s.tags.map Tag.id).Nodup
  tagNamesNodup : (s.tags.map Tag.name).Nodup
  tagsLt : ∀ t ∈ s.tags, t.id < s.nextTagId
  linksNodup : s.noteTags.Nodup
  linkNote : ∀ p ∈ s.noteTags, ∃ n ∈ s.notes, n.id = p.1
  linkTag : ∀ p ∈ s.noteTags, ∃ t ∈ s.tags, t.id = p.2

/-- Store states reachable from the freshly migrated empty store through the
service's request handler. -/
inductive Reachable : Store → Prop where
  | empty : Reachable Store.empty
  | step {s : Store} (now : Nat) (req : Request) (h : Reachable s) :
      Reachable (handle s now req).2

/-- Embeds the URL construction of the `ls` case of `executeVetaCommand`
(`src/examples/agents-sdk/src/tools.ts` lines 72-74): a present, non-empty
tag-filter list is joined with commas — with no URL encoding — into the query
string; the request is a GET to the resulting URL. -/
def lsRequestUrl (tags : Option (List String)) : String :=
  let params :=
    match tags with
    | some ts => if ts.length ≠ 0 then "?tags=" ++ String.intercalate "," ts else ""
    | none => ""
  "http://veta/notes" ++ params

/-- Embeds the URL construction of the `listNotes` tool
(`src/examples/agent-sdk/src/tools.ts` lines 28-30): the identical
comma-join construction. -/
def listNotesRequestUrl (tags : Option (List String)) : String :=
  let params :=
    match tags with
    | some ts => if ts.length ≠ 0 then "?tags=" ++ String.intercalate "," ts else ""
    | none => ""
  "http://veta/notes" ++ params

/-- The per-id success message of the `rm` case of `executeVetaCommand`
(`src/examples/agents-sdk/src/tools.ts` line 131). -/
def rmDeletedMsg (id : Nat) : String := s!"Deleted note {id}."

/-- The per-id not-found message of the `rm` case (same line). -/
def rmNotFoundMsg (id : Nat) : String := s!"Note {id} not found."

/-- One iteration of the `rm` loop: issue the DELETE for `id` against the
service state and push the outcome message for this id. -/
def rmStep (acc : List String × Store) (id : Nat) : List String × Store :=
  let r := deleteNote acc.2 id
  (acc.1 ++ [if r.1 then rmDeletedMsg id else rmNotFoundMsg id], r.2)

/-- Embeds the `rm` case of `executeVetaCommand`
(`src/examples/agents-sdk/src/tools.ts` lines 125-134): one DELETE request
per id, in order, pushing `Deleted note {id}.` on an ok response and
`Note {id} not found.` otherwise. The store is the modelled service state the
DELETE requests run against. -/
def rmCommand (s : Store) (ids : List Nat) : List String × Store :=
  ids.foldl rmStep ([], s)

/-- First-occurrence deduplication of `names` appended to an accumulator
already containing the names linked so far. -/
def dedupAppend (acc names : List String) : List String :=
  names.foldl (fun a nm => if nm ∈ a then a else a ++ [nm]) acc

/-- An HTTP response as the adapters see it: `ok` (status in the 200-299
range), the numeric status, and the body after `res.json()`: `none` when the
body is not valid JSON (the parse rejects), `some` of the parsed value
otherwise. -/
structure HttpResponse (β : Type) where
  ok : Bool
  status : Nat
  json : Option β
deriving Repr, DecidableEq

/-- The JSON value of a create response body as the adapter reads it:
`data.id`, absent (`none`) when the parsed object has no `id` field. -/
structure IdJson where
  id : Option Nat
deriving Repr, DecidableEq

/-- Renders `data.id` the way JS template interpolation does: an absent field
prints as `undefined`. -/
def renderId : Option Nat → String
  | none => "undefined"
  | some n => toString n

/-- Embeds the response handling of the `addNote` tool
(`src/examples/agent-sdk/src/tools.ts` lines 12-20): the HTTP status is never
inspected; the body is parsed as JSON (`.error` models the rejected promise
when it is not JSON) and the success message is returned. -/
def addNoteResult (title : String) (res : HttpResponse IdJson) :
    Except String String :=
  match res.json with
  | none => .error "SyntaxError: unexpected token in JSON"
  | some d =>
      let idStr := renderId d.id
      .ok s!"Added note {idStr}: {title}"

/-- The JSON body of a successful show response. -/
structure NoteJson where
  title : String
  body : String
  tags : List String
deriving Repr, DecidableEq

/-- Embeds the response handling of the `show` case of `executeVetaCommand`
(`src/examples/agents-sdk/src/tools.ts` lines 87-96) and of the `showNote`
tool (`src/examples/agent-sdk/src/tools.ts` lines 42-47): every non-ok
response, whatever its status, yields `Note {id} not found.` before the body
is even read; an ok response is parsed and formatted. -/
def showNoteResult (id : Nat) (res : HttpResponse NoteJson) :
    Except String String :=
  if res.ok then
    match res.json with
    | none => .error "SyntaxError: unexpected token in JSON"
    | some n =>
        let t := n.title
        let b := n.body
        let tagsStr := String.intercalate ", " n.tags
        .ok s!"# {t}\n\n{b}\n\nTags: {tagsStr}"
  else .ok s!"Note {id} not found."

/-- An `ALTER TABLE ... ADD COLUMN` statement, transcribed field by field. -/
structure AlterAddColumn where
  table : String
  column : String
  columnQuoted : Bool
  colType : String
  notNull : Bool
  defaultValue : String
deriving Repr, DecidableEq

/-- The single statement of the later schema revision (`src/unnamed/part_001`):
`ALTER TABLE notes ADD COLUMN references TEXT NOT NULL DEFAULT [empty JSON
array literal]`, with the column name written unquoted. -/
def migration0002 : AlterAddColumn :=
  { table := "notes", column := "references", columnQuoted := false,
    colType := "TEXT", notNull := true, defaultValue := "[]" }

/-- The SQLite reserved keywords that cannot serve as an unquoted identifier
(the non-fallback keywords of the SQLite grammar; Cloudflare D1 runs SQLite,
and the schema header declares SQLite/D1 compatibility). -/
def sqliteReservedKeywords : List String :=
  ["ADD", "ALL", "ALTER", "AND", "AS", "AUTOINCREMENT", "BETWEEN", "CASE",
   "CHECK", "COLLATE", "COMMIT", "CONSTRAINT", "CREATE", "CROSS", "DEFAULT",
   "DEFERRABLE", "DELETE", "DISTINCT", "DROP", "ELSE", "ESCAPE", "EXISTS",
   "FOREIGN", "FROM", "GROUP", "HAVING", "IN", "INDEX", "INNER", "INSERT",
   "INTO", "IS", "ISNULL", "JOIN", "LEFT", "LIMIT", "NATURAL", "NOT",
   "NOTNULL", "NULL", "ON", "OR", "ORDER", "OUTER", "PRIMARY", "REFERENCES",
   "RIGHT", "SELECT", "SET", "TABLE", "THEN", "TO", "TRANSACTION", "UNIQUE",
   "UPDATE", "USING", "VALUES", "WHEN", "WHERE"]

/-- Uppercases an ASCII letter (SQLite keyword matching is case-insensitive). -/
def upChar (c : Char) : Char :=
  if 97 ≤ c.toNat ∧ c.toNat ≤ 122 then Char.ofNat (c.toNat - 32) else c

/-- ASCII-uppercases a string. -/
def asciiUpper (s : String) : String := String.mk (s.data.map upChar)

/-- Whether SQLite's parser accepts the ALTER TABLE ADD COLUMN statement: an
unquoted column name that is a reserved keyword is a syntax error, so the
statement is rejected and no column is added. -/
def alterAccepted (m : AlterAddColumn) : Bool :=
  m.columnQuoted || !(sqliteReservedKeywords.contains (asciiUpper m.column))

/-! ### Generic list helpers -/

lemma find?_key_eq {α β : Type} [DecidableEq β] (f : α → β) (b : β) :
    ∀ (l : List α), (l.map f).Nodup → ∀ x ∈ l, f x = b →
      l.find? (fun y => f y = b) = some x
  | [], _, x, hx, _ => absurd hx (by simp)
  | a :: tl, hn, x, hx, hfx => by
      rcases List.mem_cons.mp hx with rfl | hx'
      · exact List.find?_cons_of_pos tl (by simp [hfx])
      · have hmem : f x ∈ tl.map f := List.mem_map_of_mem f hx'
        have hne : ¬ (f a = b) := fun h =>
          (List.nodup_cons.mp hn).1 (h ▸ (hfx ▸ hmem))
        rw [List.find?_cons_of_neg tl (by simpa using hne)]
        exact find?_key_eq f b tl (List.nodup_cons.mp hn).2 x hx' hfx

lemma find?_append_of_some {α : Type} {p : α → Bool} {l1 : List α} (l2 : List α)
    {a : α} (h : l1.find? p = some a) : (l1 ++ l2).find? p = some a := by
  rw [List.find?_append, h]; rfl

lemma find?_append_of_none {α : Type} {p : α → Bool} {l1 : List α} (l2 : List α)
    (h : l1.find? p = none) : (l1 ++ l2).find? p = l2.find? p := by
  rw [List.find?_append, h]; rfl

lemma length_filter_key_le_one {α β : Type} [DecidableEq β] (f : α → β) (b : β) :
    ∀ (l : List α), (l.map f).Nodup → (l.filter (fun x => f x = b)).length ≤ 1
  | [], _ => by simp
  | a :: tl, hn => by
      by_cases hf : f a = b
      · have htl : tl.filter (fun x => f x = b) = [] := by
          refine List.filter_eq_nil_iff.mpr (fun x hx => ?_)
          have hmem : f x ∈ tl.map f := List.mem_map_of_mem f hx
          simp only [decide_eq_true_eq]
          intro hfx
          exact absurd
            (show f a ∈ tl.map f by rw [hf, ← hfx]; exact hmem)
            (List.nodup_cons.mp hn).1
        simp [List.filter_cons, hf, htl]
      · simpa [List.filter_cons, hf] using
          length_filter_key_le_one f b tl (List.nodup_cons.mp hn).2

/-! ### Facts about tag lookup -/

lemma tagNameOf_of_mem {s : Store} (hids : (s.tags.map Tag.id).Nodup)
    {t : Tag} (ht : t ∈ s.tags) : tagNameOf s t.id = some t.name := by
  unfold tagNameOf
  rw [find?_key_eq Tag.id t.id s.tags hids t ht rfl]
  rfl

lemma tagNameOf_mem {s : Store} {tid : Nat} {nm : String}
    (h : tagNameOf s tid = some nm) : ∃ t ∈ s.tags, t.id = tid ∧ t.name = nm := by
  unfold tagNameOf at h
  cases hf : s.tags.find? (fun u => u.id = tid) with
  | none => rw [hf] at h; simp at h
  | some u =>
      rw [hf] at h
      simp at h
      refine ⟨u, List.mem_of_find?_eq_some hf, ?_, h⟩
      simpa using List.find?_some hf

lemma tagNameOf_tags_eq {s s' : Store} (h : s'.tags = s.tags) (tid : Nat) :
    tagNameOf s' tid = tagNameOf s tid := by
  unfold tagNameOf; rw [h]

/-! ### findOrCreateTag -/

lemma fct_frame (s : Store) (nm : String) :
    (findOrCreateTag s nm).2.notes = s.notes ∧
    (findOrCreateTag s nm).2.noteTags = s.noteTags ∧
    (findOrCreateTag s nm).2.nextNoteId = s.nextNoteId := by
  unfold findOrCreateTag
  cases s.tags.find? (fun t => t.name = nm) <;> simp

lemma fct_spec (s : Store) (nm : String) (hwf : s.wf) :
    (findOrCreateTag s nm).2.wf ∧
    tagNameOf (findOrCreateTag s nm).2 (findOrCreateTag s nm).1 = some nm ∧
    (∀ tid x, tagNameOf s tid = some x →
      tagNameOf (findOrCreateTag s nm).2 tid = some x) ∧
    (∀ tid, tagNameOf (findOrCreateTag s nm).2 tid = some nm →
      tid = (findOrCreateTag s nm).1) := by
  cases hf : s.tags.find? (fun t => t.name = nm) with
  | some t =>
      have heq : findOrCreateTag s nm = (t.id, s) := by
        unfold findOrCreateTag; rw [hf]
      have htmem : t ∈ s.tags := List.mem_of_find?_eq_some hf
      have htnm : t.name = nm := by simpa using List.find?_some hf
      rw [heq]
      refine ⟨hwf, ?_, fun tid x hx => hx, fun tid htid => ?_⟩
      · rw [tagNameOf_of_mem hwf.tagIdsNodup htmem, htnm]
      · obtain ⟨u, humem, huid, hunm⟩ := tagNameOf_mem htid
        have hut : u = t :=
          List.inj_on_of_nodup_map hwf.tagNamesNodup humem htmem
            (by rw [hunm, htnm])
        rw [← huid, hut]
  | none =>
      have hnone : ∀ u ∈ s.tags, ¬ u.name = nm := by
        have hall := List.find?_eq_none.mp hf
        intro u hu
        simpa using hall u hu
      have heq : findOrCreateTag s nm =
          (s.nextTagId,
            { s with tags := s.tags ++ [{ id := s.nextTagId, name := nm }],
                     nextTagId := s.nextTagId + 1 }) := by
        unfold findOrCreateTag; rw [hf]
      rw [heq]
      refine ⟨?_, ?_, ?_, ?_⟩
      · refine ⟨hwf.notesNodup, hwf.notesLt, ?_, ?_, ?_, hwf.linksNodup,
          hwf.linkNote, ?_⟩
        · show ((s.tags ++ [Tag.mk s.nextTagId nm]).map Tag.id).Nodup
          rw [List.map_append, List.nodup_append]
          refine ⟨hwf.tagIdsNodup, by simp, ?_⟩
          intro a ha hb
          simp only [List.map_cons, List.map_nil, List.mem_singleton] at hb
          obtain ⟨u, hu, hua⟩ := List.mem_map.mp ha
          have := hwf.tagsLt u hu
          omega
        · show ((s.tags ++ [Tag.mk s.nextTagId nm]).map Tag.name).Nodup
          rw [List.map_append, List.nodup_append]
          refine ⟨hwf.tagNamesNodup, by simp, ?_⟩
          intro a ha hb
          simp only [List.map_cons, List.map_nil, List.mem_singleton] at hb
          obtain ⟨u, hu, hua⟩ := List.mem_map.mp ha
          exact hnone u hu (hua.trans hb)
        · intro t ht
          show t.id < s.nextTagId + 1
          rcases List.mem_append.mp ht with hmem | hmem
          · have := hwf.tagsLt t hmem
            omega
          · have ht' : t = Tag.mk s.nextTagId nm := by simpa using hmem
            rw [ht']
            show s.nextTagId < s.nextTagId + 1
            omega
        · intro p hp
          obtain ⟨t, ht, hid⟩ := hwf.linkTag p hp
          exact ⟨t, List.mem_append_left _ ht, hid⟩
      · show Option.map Tag.name
          ((s.tags ++ [Tag.mk s.nextTagId nm]).find?
            (fun u => u.id = s.nextTagId)) = some nm
        have h1 : s.tags.find? (fun u => u.id = s.nextTagId) = none := by
          refine List.find?_eq_none.mpr (fun u hu => ?_)
          have := hwf.tagsLt u hu
          simp only [decide_eq_true_eq]
          omega
        rw [find?_append_of_none _ h1]
        simp [List.find?]
      · intro tid x hx
        unfold tagNameOf at hx ⊢
        cases hfx : s.tags.find? (fun u => u.id = tid) with
        | none => rw [hfx] at hx; simp at hx
        | some u =>
            rw [hfx] at hx
            show Option.map Tag.name
              ((s.tags ++ [Tag.mk s.nextTagId nm]).find?
                (fun v => v.id = tid)) = some x
            rw [find?_append_of_some _ hfx]
            exact hx
      · intro tid htid
        obtain ⟨u, humem, huid, hunm⟩ := tagNameOf_mem htid
        rcases List.mem_append.mp humem with hu | hu
        · exact absurd hunm (hnone u hu)
        · have hu' : u = Tag.mk s.nextTagId nm := by simpa using hu
          rw [← huid, hu']

/-! ### Association rows and their tag names -/

lemma mem_linkedTagIds {s : Store} {nid tid : Nat} :
    tid ∈ linkedTagIds s nid ↔ (nid, tid) ∈ s.noteTags := by
  unfold linkedTagIds
  constructor
  · intro h
    obtain ⟨p, hp, hsnd⟩ := List.mem_map.mp h
    have hfil := List.mem_filter.mp hp
    have h1 : p.1 = nid := by simpa using hfil.2
    have hpe : p = (nid, tid) := by
      cases p
      simp only [Prod.mk.injEq]
      simp only at h1 hsnd
      exact ⟨h1, hsnd⟩
    rw [← hpe]
    exact hfil.1
  · intro h
    exact List.mem_map.mpr ⟨(nid, tid), List.mem_filter.mpr ⟨h, by simp⟩, rfl⟩

lemma linkedTagIds_defined {s : Store} (hwf : s.wf) {nid tid : Nat}
    (h : tid ∈ linkedTagIds s nid) : ∃ nm, tagNameOf s tid = some nm := by
  have hrow : (nid, tid) ∈ s.noteTags := mem_linkedTagIds.mp h
  obtain ⟨t, ht, hid⟩ := hwf.linkTag _ hrow
  refine ⟨t.name, ?_⟩
  have := tagNameOf_of_mem hwf.tagIdsNodup ht
  simpa [hid] using this

lemma noteTagNames_congr {s s' : Store} (nid : Nat)
    (hrows : s'.noteTags = s.noteTags)
    (hdef : ∀ tid ∈ linkedTagIds s nid, tagNameOf s' tid = tagNameOf s tid) :
    noteTagNames s' nid = noteTagNames s nid := by
  unfold noteTagNames
  have hl : linkedTagIds s' nid = linkedTagIds s nid := by
    unfold linkedTagIds; rw [hrows]
  rw [hl]
  exact List.filterMap_congr hdef

lemma linkOne_spec (st : Store) (nid : Nat) (nm : String) (hwf : st.wf)
    (hn : ∃ n ∈ st.notes, n.id = nid) :
    (linkOne nid st nm).wf ∧
    (linkOne nid st nm).notes = st.notes ∧
    (linkOne nid st nm).nextNoteId = st.nextNoteId ∧
    noteTagNames (linkOne nid st nm) nid =
      (if nm ∈ noteTagNames st nid then noteTagNames st nid
       else noteTagNames st nid ++ [nm]) := by
  obtain ⟨hwf2, hname, hext, hinj⟩ := fct_spec st nm hwf
  obtain ⟨hfn, hft, hfi⟩ := fct_frame st nm
  have hdef : ∀ tid ∈ linkedTagIds st nid,
      tagNameOf (findOrCreateTag st nm).2 tid = tagNameOf st tid := by
    intro tid htid
    obtain ⟨x, hx⟩ := linkedTagIds_defined hwf htid
    rw [hx, hext tid x hx]
  have hsame : noteTagNames (findOrCreateTag st nm).2 nid = noteTagNames st nid :=
    noteTagNames_congr nid hft hdef
  have hcorr :
      ((nid, (findOrCreateTag st nm).1) ∈ (findOrCreateTag st nm).2.noteTags)
        ↔ nm ∈ noteTagNames st nid := by
    constructor
    · intro h
      rw [hft] at h
      obtain ⟨t, ht, hid⟩ := hwf.linkTag _ h
      have h1 : tagNameOf st (findOrCreateTag st nm).1 = some t.name := by
        have := tagNameOf_of_mem hwf.tagIdsNodup ht
        simpa [hid] using this
      have h2 := hext _ _ h1
      rw [hname] at h2
      have h3 : t.name = nm := by simpa using h2.symm
      refine List.mem_filterMap.mpr ⟨(findOrCreateTag st nm).1, ?_, ?_⟩
      · exact mem_linkedTagIds.mpr h
      · rw [h1, h3]
    · intro h
      obtain ⟨tid, htid, hx⟩ := List.mem_filterMap.mp h
      have h2 := hext _ _ hx
      have h3 := hinj _ h2
      rw [hft, ← h3]
      exact mem_linkedTagIds.mp htid
  have hl : linkOne nid st nm =
      (if (nid, (findOrCreateTag st nm).1) ∈ (findOrCreateTag st nm).2.noteTags
       then (findOrCreateTag st nm).2
       else { (findOrCreateTag st nm).2 with
                noteTags := (findOrCreateTag st nm).2.noteTags ++
                  [(nid, (findOrCreateTag st nm).1)] }) := rfl
  by_cases hmem :
      (nid, (findOrCreateTag st nm).1) ∈ (findOrCreateTag st nm).2.noteTags
  · rw [hl, if_pos hmem, if_pos (hcorr.mp hmem)]
    exact ⟨hwf2, hfn, hfi, hsame⟩
  · have hnin : nm ∉ noteTagNames st nid := fun h => hmem (hcorr.mpr h)
    rw [hl, if_neg hmem, if_neg hnin]
    have htags : ∀ tid,
        tagNameOf { (findOrCreateTag st nm).2 with
            noteTags := (findOrCreateTag st nm).2.noteTags ++
              [(nid, (findOrCreateTag st nm).1)] } tid =
          tagNameOf (findOrCreateTag st nm).2 tid :=
      fun tid => tagNameOf_tags_eq rfl tid
    refine ⟨?_, hfn, hfi, ?_⟩
    · refine ⟨hwf2.notesNodup, hwf2.notesLt, hwf2.tagIdsNodup,
        hwf2.tagNamesNodup, hwf2.tagsLt, ?_, ?_, ?_⟩
      · show ((findOrCreateTag st nm).2.noteTags ++
          [(nid, (findOrCreateTag st nm).1)]).Nodup
        rw [List.nodup_append]
        refine ⟨hwf2.linksNodup, by simp, ?_⟩
        intro p hp hq
        simp only [List.mem_singleton] at hq
        rw [hq] at hp
        exact hmem hp
      · intro p hp
        show ∃ n ∈ (findOrCreateTag st nm).2.notes, n.id = p.1
        rcases List.mem_append.mp hp with hpo | hpn
        · exact hwf2.linkNote p hpo
        · have hpe : p = (nid, (findOrCreateTag st nm).1) := by simpa using hpn
          rw [hpe]
          obtain ⟨n, hn1, hn2⟩ := hn
          exact ⟨n, by rw [hfn]; exact hn1, hn2⟩
      · intro p hp
        show ∃ t ∈ (findOrCreateTag st nm).2.tags, t.id = p.2
        rcases List.mem_append.mp hp with hpo | hpn
        · exact hwf2.linkTag p hpo
        · have hpe : p = (nid, (findOrCreateTag st nm).1) := by simpa using hpn
          rw [hpe]
          obtain ⟨t, ht, hid, hnm2⟩ := tagNameOf_mem hname
          exact ⟨t, ht, hid⟩
    · unfold noteTagNames linkedTagIds
      show List.filterMap
          (tagNameOf { (findOrCreateTag st nm).2 with
              noteTags := (findOrCreateTag st nm).2.noteTags ++
                [(nid, (findOrCreateTag st nm).1)] })
          ((((findOrCreateTag st nm).2.noteTags ++
              [(nid, (findOrCreateTag st nm).1)]).filter
            (fun p => p.1 = nid)).map Prod.snd) =
        noteTagNames st nid ++ [nm]
      rw [List.filter_append, List.map_append, List.filterMap_append]
      have hfil : ([((nid : Nat), (findOrCreateTag st nm).1)].filter
          (fun p => p.1 = nid)) = [(nid, (findOrCreateTag st nm).1)] := by simp
      rw [hfil]
      have h1 : List.filterMap
          (tagNameOf { (findOrCreateTag st nm).2 with
              noteTags := (findOrCreateTag st nm).2.noteTags ++
                [(nid, (findOrCreateTag st nm).1)] })
          (((findOrCreateTag st nm).2.noteTags.filter
            (fun p => p.1 = nid)).map Prod.snd) = noteTagNames st nid := by
        rw [List.filterMap_congr (fun tid _ => htags tid)]
        exact hsame
      have h2 : List.filterMap
          (tagNameOf { (findOrCreateTag st nm).2 with
              noteTags := (findOrCreateTag st nm).2.noteTags ++
                [(nid, (findOrCreateTag st nm).1)] })
          ([((nid : Nat), (findOrCreateTag st nm).1)].map Prod.snd) = [nm] := by
        simp only [List.map_cons, List.map_nil]
        rw [List.filterMap_cons]
        rw [htags, hname]
        rfl
      rw [h1, h2]

lemma dedupAppend_cons (acc : List String) (nm : String) (rest : List String) :
    dedupAppend acc (nm :: rest) =
      dedupAppend (if nm ∈ acc then acc else acc ++ [nm]) rest := rfl

lemma dedupAppend_nodup : ∀ (names acc : List String), acc.Nodup →
    (dedupAppend acc names).Nodup
  | [], _, h => h
  | nm :: rest, acc, h => by
      rw [dedupAppend_cons]
      by_cases hm : nm ∈ acc
      · rw [if_pos hm]
        exact dedupAppend_nodup rest acc h
      · rw [if_neg hm]
        refine dedupAppend_nodup rest _ ?_
        rw [List.nodup_append]
        refine ⟨h, by simp, ?_⟩
        intro a ha hb
        simp only [List.mem_singleton] at hb
        rw [hb] at ha
        exact hm ha

lemma dedupAppend_mem : ∀ (names acc : List String) (x : String),
    x ∈ dedupAppend acc names ↔ x ∈ acc ∨ x ∈ names
  | [], acc, x => by simp [dedupAppend]
  | nm :: rest, acc, x => by
      rw [dedupAppend_cons]
      by_cases hm : nm ∈ acc
      · rw [if_pos hm, dedupAppend_mem rest acc x]
        constructor
        · rintro (h | h)
          · exact Or.inl h
          · exact Or.inr (List.mem_cons_of_mem _ h)
        · rintro (h | h)
          · exact Or.inl h
          · rcases List.mem_cons.mp h with rfl | h
            · exact Or.inl hm
            · exact Or.inr h
      · rw [if_neg hm, dedupAppend_mem rest _ x]
        simp only [List.mem_append, List.mem_singleton, List.mem_cons]
        tauto

lemma addTagLinks_spec :
    ∀ (names : List String) (st : Store) (nid : Nat), st.wf →
      (∃ n ∈ st.notes, n.id = nid) →
      (addTagLinks st nid names).wf ∧
      (addTagLinks st nid names).notes = st.notes ∧
      (addTagLinks st nid names).nextNoteId = st.nextNoteId ∧
      noteTagNames (addTagLinks st nid names) nid =
        dedupAppend (noteTagNames st nid) names
  | [], st, nid, hwf, _ => ⟨hwf, rfl, rfl, rfl⟩
  | nm :: rest, st, nid, hwf, hn => by
      obtain ⟨h1, h2, h3, h4⟩ := linkOne_spec st nid nm hwf hn
      have hn' : ∃ n ∈ (linkOne nid st nm).notes, n.id = nid := by
        rw [h2]; exact hn
      obtain ⟨g1, g2, g3, g4⟩ :=
        addTagLinks_spec rest (linkOne nid st nm) nid h1 hn'
      have hstep : addTagLinks st nid (nm :: rest) =
          addTagLinks (linkOne nid st nm) nid rest := rfl
      rw [hstep]
      refine ⟨g1, g2.trans h2, g3.trans h3, ?_⟩
      rw [g4, h4, dedupAppend_cons]

/-! ### createNote -/

lemma createNote_ok {s : Store} {t b : String} {ts : List String} {now nid : Nat}
    {s' : Store}
    (h : createNote s (some t) (some b) ts now = Except.ok (nid, s')) :
    t ≠ "" ∧ nid = s.nextNoteId ∧
    s' = addTagLinks
      { s with
          notes := s.notes ++ [Note.mk s.nextNoteId t b now now],
          nextNoteId := s.nextNoteId + 1 } s.nextNoteId ts := by
  by_cases ht : t = ""
  · rw [ht] at h
    simp [createNote] at h
  · simp only [createNote, ht, if_neg, ite_false] at h
    rw [Except.ok.injEq, Prod.mk.injEq] at h
    exact ⟨ht, h.1.symm, h.2.symm⟩

lemma insert_note_wf {s : Store} (hwf : s.wf) (t b : String) (now : Nat) :
    ({ s with
        notes := s.notes ++ [Note.mk s.nextNoteId t b now now],
        nextNoteId := s.nextNoteId + 1 } : Store).wf ∧
    (∃ n ∈ ({ s with
        notes := s.notes ++ [Note.mk s.nextNoteId t b now now],
        nextNoteId := s.nextNoteId + 1 } : Store).notes, n.id = s.nextNoteId) ∧
    noteTagNames { s with
        notes := s.notes ++ [Note.mk s.nextNoteId t b now now],
        nextNoteId := s.nextNoteId + 1 } s.nextNoteId = [] := by
  refine ⟨⟨?_, ?_, hwf.tagIdsNodup, hwf.tagNamesNodup, hwf.tagsLt,
      hwf.linksNodup, ?_, hwf.linkTag⟩, ?_, ?_⟩
  · show ((s.notes ++ [Note.mk s.nextNoteId t b now now]).map Note.id).Nodup
    rw [List.map_append, List.nodup_append]
    refine ⟨hwf.notesNodup, by simp, ?_⟩
    intro a ha hb
    simp only [List.map_cons, List.map_nil, List.mem_singleton] at hb
    obtain ⟨n, hn, hna⟩ := List.mem_map.mp ha
    have := hwf.notesLt n hn
    omega
  · intro n hn
    show n.id < s.nextNoteId + 1
    rcases List.mem_append.mp hn with hmem | hmem
    · have := hwf.notesLt n hmem
      omega
    · have hne : n = Note.mk s.nextNoteId t b now now := by simpa using hmem
      rw [hne]
      show s.nextNoteId < s.nextNoteId + 1
      omega
  · intro p hp
    obtain ⟨n, hn, hid⟩ := hwf.linkNote p hp
    exact ⟨n, List.mem_append_left _ hn, hid⟩
  · exact ⟨Note.mk s.nextNoteId t b now now,
      List.mem_append_right _ (by simp), rfl⟩
  · unfold noteTagNames linkedTagIds
    have hfil : s.noteTags.filter (fun p => p.1 = s.nextNoteId) = [] := by
      refine List.filter_eq_nil_iff.mpr (fun p hp => ?_)
      obtain ⟨n, hn, hid⟩ := hwf.linkNote p hp
      have := hwf.notesLt n hn
      simp only [decide_eq_true_eq]
      omega
    show List.filterMap _ ((s.noteTags.filter (fun p => p.1 = s.nextNoteId)).map
      Prod.snd) = []
    rw [hfil]
    rfl

/-- C1: For every create-note request with title `t`, body `b`, and tag list
`ts`, showing the note by the id returned from the create yields exactly
title `t`, body `b`, and the deduplicated tag set of `ts`: the shown tag list
is the first-occurrence deduplication of `ts`, duplicate-free, containing
exactly the members of `ts`. -/
theorem create_show_roundtrip (s : Store) (t b : String) (ts : List String)
    (now nid : Nat) (s' : Store) (hwf : s.wf)
    (h : createNote s (some t) (some b) ts now = Except.ok (nid, s')) :
    showNote s' nid = some (t, b, dedupAppend [] ts) ∧
    (dedupAppend [] ts).Nodup ∧
    (∀ x, x ∈ dedupAppend [] ts ↔ x ∈ ts) := by
  obtain ⟨ht, hnid, hs'⟩ := createNote_ok h
  obtain ⟨hwf1, hmem1, hzero⟩ := insert_note_wf hwf t b now
  obtain ⟨gwf, gnotes, gnext, gnames⟩ :=
    addTagLinks_spec ts _ s.nextNoteId hwf1 hmem1
  subst hs'
  subst hnid
  refine ⟨?_, dedupAppend_nodup ts [] (by simp), fun x => by
    rw [dedupAppend_mem]; simp⟩
  unfold showNote
  rw [gnotes]
  have h0 : s.notes.find? (fun n => n.id = s.nextNoteId) = none := by
    refine List.find?_eq_none.mpr (fun n hn => ?_)
    have := hwf.notesLt n hn
    simp only [decide_eq_true_eq]
    omega
  have hfind : ({ s with
      notes := s.notes ++ [Note.mk s.nextNoteId t b now now],
      nextNoteId := s.nextNoteId + 1 } : Store).notes.find?
      (fun n => n.id = s.nextNoteId) = some (Note.mk s.nextNoteId t b now now) := by
    show (s.notes ++ [Note.mk s.nextNoteId t b now now]).find?
      (fun n => n.id = s.nextNoteId) = some (Note.mk s.nextNoteId t b now now)
    rw [find?_append_of_none _ h0]
    simp [List.find?]
  rw [hfind]
  simp only [Option.map_some']
  rw [gnames, hzero]

/-- Witness for C1: creating the note "A"/"hello" with tags ["x", "x", "y"] in
the empty store returns id 1, and showing note 1 yields title, body, and the
deduplicated tags ["x", "y"]. -/
theorem create_show_roundtrip_witness :
    createNote Store.empty (some "A") (some "hello") ["x", "x", "y"] 5 =
      Except.ok (1, Store.mk [Note.mk 1 "A" "hello" 5 5]
        [Tag.mk 1 "x", Tag.mk 2 "y"] [(1, 1), (1, 2)] 2 3) ∧
    Store.empty.wf ∧
    showNote (Store.mk [Note.mk 1 "A" "hello" 5 5]
        [Tag.mk 1 "x", Tag.mk 2 "y"] [(1, 1), (1, 2)] 2 3) 1 =
      some ("A", "hello", dedupAppend [] ["x", "x", "y"]) :=
  have hwf : Store.empty.wf :=
    ⟨by simp [Store.empty], by simp [Store.empty], by simp [Store.empty],
     by simp [Store.empty], by simp [Store.empty], by simp [Store.empty],
     by simp [Store.empty], by simp [Store.empty]⟩
  ⟨rfl, hwf,
    (create_show_roundtrip Store.empty "A" "hello" ["x", "x", "y"] 5 1
      (Store.mk [Note.mk 1 "A" "hello" 5 5]
        [Tag.mk 1 "x", Tag.mk 2 "y"] [(1, 1), (1, 2)] 2 3) hwf rfl).1⟩

/-- C2: deleting a note deletes exactly its row and exactly its association
rows and leaves the tag table unchanged: a note row survives iff its id
differs from the deleted id, an association row survives iff its `note_id`
differs (associations of other notes are untouched), and `tags` is exactly
unchanged, so orphaned tags are retained. -/
theorem delete_frame (s : Store) (nid : Nat) :
    (∀ n, n ∈ (deleteNote s nid).2.notes ↔ n ∈ s.notes ∧ n.id ≠ nid) ∧
    (∀ p, p ∈ (deleteNote s nid).2.noteTags ↔ p ∈ s.noteTags ∧ p.1 ≠ nid) ∧
    (deleteNote s nid).2.tags = s.tags := by
  refine ⟨fun n => ?_, fun p => ?_, rfl⟩
  · show n ∈ s.notes.filter (fun m => m.id ≠ nid) ↔ _
    rw [List.mem_filter]
    simp
  · show p ∈ s.noteTags.filter (fun q => q.1 ≠ nid) ↔ _
    rw [List.mem_filter]
    simp

lemma deleteNote_wf {s : Store} (hwf : s.wf) (nid : Nat) :
    (deleteNote s nid).2.wf := by
  refine ⟨?_, ?_, hwf.tagIdsNodup, hwf.tagNamesNodup, hwf.tagsLt, ?_, ?_, ?_⟩
  · show ((s.notes.filter (fun n => n.id ≠ nid)).map Note.id).Nodup
    exact hwf.notesNodup.sublist ((List.filter_sublist s.notes).map Note.id)
  · intro n hn
    have := hwf.notesLt n (List.mem_of_mem_filter hn)
    show n.id < s.nextNoteId
    exact this
  · show (s.noteTags.filter (fun p => p.1 ≠ nid)).Nodup
    exact hwf.linksNodup.sublist (List.filter_sublist _)
  · intro p hp
    have hmem := List.mem_filter.mp hp
    have hne : p.1 ≠ nid := by simpa using hmem.2
    obtain ⟨n, hn, hid⟩ := hwf.linkNote p hmem.1
    refine ⟨n, ?_, hid⟩
    show n ∈ s.notes.filter (fun m => m.id ≠ nid)
    rw [List.mem_filter]
    refine ⟨hn, ?_⟩
    simp only [decide_eq_true_eq]
    rw [hid]
    exact hne
  · intro p hp
    exact hwf.linkTag p (List.mem_of_mem_filter hp)

lemma createNote_wf {s : Store} (hwf : s.wf) {title body : Option String}
    {tags : List String} {now : Nat} {r : Nat × Store}
    (h : createNote s title body tags now = Except.ok r) : r.2.wf := by
  cases title with
  | none => simp [createNote] at h
  | some t =>
      cases body with
      | none =>
          by_cases ht : t = "" <;> simp [createNote, ht] at h
      | some b =>
          by_cases ht : t = ""
          · simp [createNote, ht] at h
          · have h' : createNote s (some t) (some b) tags now =
                Except.ok (r.1, r.2) := h
            obtain ⟨_, hnid, hs'⟩ := createNote_ok h'
            rw [hs']
            obtain ⟨hwf1, hmem1, _⟩ := insert_note_wf hwf t b now
            exact (addTagLinks_spec tags _ s.nextNoteId hwf1 hmem1).1

lemma handle_wf (s : Store) (now : Nat) (req : Request) (hwf : s.wf) :
    (handle s now req).2.wf := by
  cases req with
  | create title body tags =>
      cases hc : createNote s title body tags now with
      | error msg => simpa [handle, hc] using hwf
      | ok r =>
          have he : (handle s now (.create title body tags)).2 = r.2 := by
            simp [handle, hc]
          rw [he]
          exact createNote_wf hwf hc
  | list tf => exact hwf
  | showReq nid =>
      cases hs : showNote s nid <;> simpa [handle, hs] using hwf
  | grep q tf =>
      by_cases hq : patternValid q <;> simpa [handle, hq] using hwf
  | listTags => exact hwf
  | delete nid => exact deleteNote_wf hwf nid

lemma wf_empty : Store.empty.wf := by
  refine ⟨?_, ?_, ?_, ?_, ?_, ?_, ?_, ?_⟩ <;> simp [Store.empty]

lemma reachable_wf : ∀ {s : Store}, Reachable s → s.wf := by
  intro s h
  induction h with
  | empty => exact wf_empty
  | step now req h ih => exact handle_wf _ now req ih

/-- C3: at every reachable store state no two tag rows share a name — so any
number of notes referencing the same tag name yield a single tag row — and
every tag's entry in the tag listing carries the count of its association
rows (the number of notes associated with it). -/
theorem tag_name_unique (s : Store) (h : Reachable s) :
    (s.tags.map Tag.name).Nodup ∧
    (∀ nm, (s.tags.filter (fun t => t.name = nm)).length ≤ 1) ∧
    (∀ t ∈ s.tags,
      (t.name, (s.noteTags.filter (fun p => p.2 = t.id)).length) ∈
        tagsWithCounts s) := by
  have hwf := reachable_wf h
  refine ⟨hwf.tagNamesNodup, fun nm => ?_, fun t ht => ?_⟩
  · exact length_filter_key_le_one Tag.name nm s.tags hwf.tagNamesNodup
  · exact List.mem_map.mpr ⟨t, ht, rfl⟩

/-- Witness for C3: after creating two notes both tagged "x" from the empty
store, the state is reachable, its tag names are duplicate-free, there is
exactly one tag row named "x", and that tag has two association rows. -/
theorem tag_name_unique_witness :
    Reachable (Store.mk [Note.mk 1 "A" "a" 0 0, Note.mk 2 "B" "b" 1 1]
      [Tag.mk 1 "x"] [(1, 1), (2, 1)] 3 2) ∧
    (((Store.mk [Note.mk 1 "A" "a" 0 0, Note.mk 2 "B" "b" 1 1]
        [Tag.mk 1 "x"] [(1, 1), (2, 1)] 3 2).tags.map Tag.name).Nodup) ∧
    ((Store.mk [Note.mk 1 "A" "a" 0 0, Note.mk 2 "B" "b" 1 1]
        [Tag.mk 1 "x"] [(1, 1), (2, 1)] 3 2).tags.filter
      (fun t => t.name = "x")).length = 1 ∧
    ((Store.mk [Note.mk 1 "A" "a" 0 0, Note.mk 2 "B" "b" 1 1]
        [Tag.mk 1 "x"] [(1, 1), (2, 1)] 3 2).noteTags.filter
      (fun p => p.2 = 1)).length = 2 := by
  have h1 : Reachable (Store.mk [Note.mk 1 "A" "a" 0 0, Note.mk 2 "B" "b" 1 1]
      [Tag.mk 1 "x"] [(1, 1), (2, 1)] 3 2) := by
    have hb :=
      Reachable.step 1 (Request.create (some "B") (some "b") ["x"])
        (Reachable.step 0 (Request.create (some "A") (some "a") ["x"])
          Reachable.empty)
    exact hb
  exact ⟨h1, (tag_name_unique _ h1).1, rfl, rfl⟩

/-- C5 counterexample: the create request with title "T", body "" (an empty
required field) and no tags is not rejected: the service answers `created 1`
(no client error) and writes — the store changes. -/
theorem validation_counterexample :
    (handle Store.empty 0 (Request.create (some "T") (some "") [])).1 =
      Response.created 1 ∧
    (handle Store.empty 0 (Request.create (some "T") (some "") [])).2 ≠
      Store.empty := by
  constructor
  · rfl
  · decide

/-- C5 (amended): every create request with a missing title, empty title, or
missing body, and every grep request with a malformed pattern, is rejected
with a client-visible error and no partial write: the store state after the
rejected request equals the state before it. (A present-but-empty body is
accepted: the body field is required but may be the empty string.) -/
theorem validation_no_write (s : Store) (now : Nat) (req : Request)
    (h : isBadRequest req = true) :
    (∃ msg, (handle s now req).1 = Response.clientError msg) ∧
    (handle s now req).2 = s := by
  cases req with
  | create title body tags =>
      simp only [isBadRequest, Bool.or_eq_true, decide_eq_true_eq] at h
      rcases h with (h | h) | h
      · subst h
        exact ⟨⟨"title is required", rfl⟩, rfl⟩
      · subst h
        exact ⟨⟨"title must be non-empty", rfl⟩, rfl⟩
      · cases title with
        | none => exact ⟨⟨"title is required", rfl⟩, rfl⟩
        | some t =>
            subst h
            by_cases ht : t = ""
            · subst ht
              exact ⟨⟨"title must be non-empty", rfl⟩, rfl⟩
            · have hc : createNote s (some t) none tags now =
                  Except.error "body is required" := by
                simp [createNote, ht]
              refine ⟨⟨"body is required", ?_⟩, ?_⟩ <;> simp [handle, hc]
  | list tf => simp [isBadRequest] at h
  | showReq nid => simp [isBadRequest] at h
  | grep q tf =>
      simp only [isBadRequest, Bool.not_eq_true'] at h
      refine ⟨⟨"invalid pattern", ?_⟩, ?_⟩ <;> simp [handle, h]
  | listTags => simp [isBadRequest] at h
  | delete nid => simp [isBadRequest] at h

/-- Witness for C5 (amended): the create request with a missing title is a
validation error; the service rejects it with a client error and the empty
store is unchanged. -/
theorem validation_no_write_witness :
    isBadRequest (Request.create none (some "b") []) = true ∧
    ((∃ msg, (handle Store.empty 0 (Request.create none (some "b") [])).1 =
        Response.clientError msg) ∧
      (handle Store.empty 0 (Request.create none (some "b") [])).2 =
        Store.empty) :=
  ⟨rfl, validation_no_write Store.empty 0 (Request.create none (some "b") []) rfl⟩

/-! ### The rm loop -/

lemma rm_acc : ∀ (ids : List Nat) (msgs : List String) (st : Store),
    (ids.foldl rmStep (msgs, st)).1 = msgs ++ (ids.foldl rmStep ([], st)).1 ∧
    (ids.foldl rmStep (msgs, st)).2 = (ids.foldl rmStep ([], st)).2
  | [], msgs, st => ⟨by simp, rfl⟩
  | id :: rest, msgs, st => by
      have e1 : rmStep (msgs, st) id =
          (msgs ++ [if (deleteNote st id).1 then rmDeletedMsg id
                    else rmNotFoundMsg id], (deleteNote st id).2) := rfl
      have e2 : rmStep ([], st) id =
          ([if (deleteNote st id).1 then rmDeletedMsg id
            else rmNotFoundMsg id], (deleteNote st id).2) := rfl
      obtain ⟨a1, a2⟩ := rm_acc rest
        (msgs ++ [if (deleteNote st id).1 then rmDeletedMsg id
                  else rmNotFoundMsg id]) (deleteNote st id).2
      obtain ⟨b1, b2⟩ := rm_acc rest
        [if (deleteNote st id).1 then rmDeletedMsg id
         else rmNotFoundMsg id] (deleteNote st id).2
      constructor
      · show (rest.foldl rmStep (rmStep (msgs, st) id)).1 =
          msgs ++ (rest.foldl rmStep (rmStep ([], st) id)).1
        rw [e1, e2, a1, b1, List.append_assoc]
      · show (rest.foldl rmStep (rmStep (msgs, st) id)).2 =
          (rest.foldl rmStep (rmStep ([], st) id)).2
        rw [e1, e2, a2, b2]

lemma rm_length : ∀ (ids : List Nat) (st : Store),
    (ids.foldl rmStep ([], st)).1.length = ids.length
  | [], _ => rfl
  | id :: rest, st => by
      have e2 : rmStep ([], st) id =
          ([if (deleteNote st id).1 then rmDeletedMsg id
            else rmNotFoundMsg id], (deleteNote st id).2) := rfl
      show (rest.foldl rmStep (rmStep ([], st) id)).1.length = rest.length + 1
      rw [e2]
      obtain ⟨b1, _⟩ := rm_acc rest
        [if (deleteNote st id).1 then rmDeletedMsg id
         else rmNotFoundMsg id] (deleteNote st id).2
      rw [b1]
      simp [rm_length rest (deleteNote st id).2]

lemma rm_getD : ∀ (ids : List Nat) (st : Store) (i : Nat), i < ids.length →
    ((ids.foldl rmStep ([], st)).1.getD i "" = rmDeletedMsg (ids.getD i 0) ∨
     (ids.foldl rmStep ([], st)).1.getD i "" = rmNotFoundMsg (ids.getD i 0))
  | [], _, i, h => absurd h (by simp)
  | id :: rest, st, 0, _ => by
      have e2 : rmStep ([], st) id =
          ([if (deleteNote st id).1 then rmDeletedMsg id
            else rmNotFoundMsg id], (deleteNote st id).2) := rfl
      obtain ⟨b1, _⟩ := rm_acc rest
        [if (deleteNote st id).1 then rmDeletedMsg id
         else rmNotFoundMsg id] (deleteNote st id).2
      show ((rest.foldl rmStep (rmStep ([], st) id)).1.getD 0 "" = _) ∨
        ((rest.foldl rmStep (rmStep ([], st) id)).1.getD 0 "" = _)
      rw [e2, b1]
      simp only [List.singleton_append, List.getD_cons_zero]
      by_cases hd : (deleteNote st id).1 = true
      · left
        simp [hd]
      · right
        simp only [Bool.not_eq_true] at hd
        simp [hd]
  | id :: rest, st, i + 1, h => by
      have e2 : rmStep ([], st) id =
          ([if (deleteNote st id).1 then rmDeletedMsg id
            else rmNotFoundMsg id], (deleteNote st id).2) := rfl
      obtain ⟨b1, _⟩ := rm_acc rest
        [if (deleteNote st id).1 then rmDeletedMsg id
         else rmNotFoundMsg id] (deleteNote st id).2
      show ((rest.foldl rmStep (rmStep ([], st) id)).1.getD (i + 1) "" = _) ∨
        ((rest.foldl rmStep (rmStep ([], st) id)).1.getD (i + 1) "" = _)
      rw [e2, b1]
      simp only [List.singleton_append, List.getD_cons_succ, List.getD_cons_succ]
      exact rm_getD rest (deleteNote st id).2 i (by simpa using h)

/-- C6: the rm bulk delete processes each id independently in sequence: it
reports exactly one message per requested id, each position's message is the
success or the not-found message for that position's id, and a further batch
continues from the state the previous ids left — no per-id outcome aborts
the remaining ids. -/
theorem rm_per_id (s : Store) (ids : List Nat) :
    (rmCommand s ids).1.length = ids.length ∧
    (∀ ids2, (rmCommand s (ids ++ ids2)).1 =
      (rmCommand s ids).1 ++ (rmCommand (rmCommand s ids).2 ids2).1) ∧
    (∀ i, i < ids.length →
      ((rmCommand s ids).1.getD i "" = rmDeletedMsg (ids.getD i 0) ∨
       (rmCommand s ids).1.getD i "" = rmNotFoundMsg (ids.getD i 0))) := by
  refine ⟨rm_length ids s, fun ids2 => ?_, fun i h => rm_getD ids s i h⟩
  show ((ids ++ ids2).foldl rmStep ([], s)).1 = _
  rw [List.foldl_append]
  obtain ⟨a1, _⟩ := rm_acc ids2 (rmCommand s ids).1 (rmCommand s ids).2
  rw [show ids2.foldl rmStep (ids.foldl rmStep ([], s) : List String × Store) =
    ids2.foldl rmStep ((rmCommand s ids).1, (rmCommand s ids).2) from rfl]
  rw [a1]
  rfl

/-- Witness for C6: deleting ids [1, 2] in a store that only contains note 2
reports exactly two messages — not-found for 1, success for 2 — and appending
a further batch [2] continues processing after the earlier failure. -/
theorem rm_per_id_witness :
    (rmCommand (Store.mk [Note.mk 2 "B" "b" 0 0] [] [] 3 1) [1, 2]).1.length =
      ([1, 2] : List Nat).length ∧
    ((rmCommand (Store.mk [Note.mk 2 "B" "b" 0 0] [] [] 3 1)
        ([1, 2] ++ [2])).1 =
      (rmCommand (Store.mk [Note.mk 2 "B" "b" 0 0] [] [] 3 1) [1, 2]).1 ++
        (rmCommand (rmCommand (Store.mk [Note.mk 2 "B" "b" 0 0] [] [] 3 1)
          [1, 2]).2 [2]).1) ∧
    ((rmCommand (Store.mk [Note.mk 2 "B" "b" 0 0] [] [] 3 1) [1, 2]).1.getD 0 "" =
        rmDeletedMsg 1 ∨
      (rmCommand (Store.mk [Note.mk 2 "B" "b" 0 0] [] [] 3 1) [1, 2]).1.getD 0 "" =
        rmNotFoundMsg 1) := by
  have h := rm_per_id (Store.mk [Note.mk 2 "B" "b" 0 0] [] [] 3 1) [1, 2]
  exact ⟨h.1, h.2.1 [2], h.2.2 0 (by decide)⟩

/-- C7: listing notes — with or without a tag filter — returns a permutation
of exactly the matching notes, sorted by `updated_at` descending; with no
filter the result is a permutation of all notes in that order. -/
theorem list_ordered (s : Store) (filt : Option (List String)) :
    List.Sorted updDesc (listNotes s filt) ∧
    List.Perm (listNotes s filt) (s.notes.filter (matchesFilter s filt)) ∧
    List.Perm (listNotes s none) s.notes := by
  refine ⟨List.sorted_insertionSort updDesc _,
    List.perm_insertionSort updDesc _, ?_⟩
  have h : s.notes.filter (matchesFilter s none) = s.notes := by
    refine List.filter_eq_self.mpr (fun a _ => ?_)
    rfl
  show List.Perm (List.insertionSort updDesc (s.notes.filter (matchesFilter s none)))
    s.notes
  rw [h]
  exact List.perm_insertionSort updDesc s.notes

/-- C8: both list-notes tool adapters join the tag-filter list with commas and
no URL encoding, so the single-element filter ["a,b"] and the two-element
filter ["a", "b"] produce the identical request URL (the GET target), namely
`http://veta/notes?tags=a,b`: a tag name containing a comma cannot be
expressed distinctly. -/
theorem ls_comma_join :
    lsRequestUrl (some ["a,b"]) = lsRequestUrl (some ["a", "b"]) ∧
    listNotesRequestUrl (some ["a,b"]) = listNotesRequestUrl (some ["a", "b"]) ∧
    lsRequestUrl (some ["a,b"]) = "http://veta/notes?tags=a,b" := by
  refine ⟨?_, ?_, ?_⟩ <;> decide

/-- C9: the agent-sdk addNote adapter never inspects the HTTP status of the
create response: its result depends only on the parsed body, and whenever the
body is JSON it returns the success message `Added note {id}: {title}` — also
for error responses, so create failures are not reported as errors. -/
theorem addnote_ignores_status :
    (∀ (title : String) (r r' : HttpResponse IdJson), r.json = r'.json →
      addNoteResult title r = addNoteResult title r') ∧
    (∀ (title : String) (r : HttpResponse IdJson) (d : IdJson),
      r.json = some d →
      addNoteResult title r =
        Except.ok ("Added note " ++ renderId d.id ++ ": " ++ title)) := by
  constructor
  · intro title r r' hj
    unfold addNoteResult
    rw [hj]
  · intro title r d hj
    unfold addNoteResult
    rw [hj]
    show Except.ok ("Added note " ++ renderId d.id ++ ": " ++ title ++ "") =
      Except.ok ("Added note " ++ renderId d.id ++ ": " ++ title)
    rw [String.append_empty]

/-- Witness for C9: a status-500 non-ok create response with JSON body
`id = 3` yields the same adapter output as a status-200 ok response, namely
the success message `Added note 3: T`. -/
theorem addnote_ignores_status_witness :
    (HttpResponse.mk false 500 (some (IdJson.mk (some 3)))).json =
      (HttpResponse.mk true 200 (some (IdJson.mk (some 3)))).json ∧
    addNoteResult "T" (HttpResponse.mk false 500 (some (IdJson.mk (some 3)))) =
      addNoteResult "T" (HttpResponse.mk true 200 (some (IdJson.mk (some 3)))) ∧
    addNoteResult "T" (HttpResponse.mk false 500 (some (IdJson.mk (some 3)))) =
      Except.ok "Added note 3: T" :=
  ⟨rfl,
    addnote_ignores_status.1 "T" _ _ rfl,
    (addnote_ignores_status.2 "T"
      (HttpResponse.mk false 500 (some (IdJson.mk (some 3))))
      (IdJson.mk (some 3)) rfl).trans rfl⟩

/-- C10: the show-note adapters return `Note {id} not found.` for every
non-ok HTTP response regardless of its status, so any two non-ok responses —
e.g. a not-found and an internal failure — are indistinguishable to the
caller. -/
theorem shownote_nonok (id : Nat) (r r' : HttpResponse NoteJson)
    (h : r.ok = false) (h' : r'.ok = false) :
    showNoteResult id r = Except.ok ("Note " ++ toString id ++ " not found.") ∧
    showNoteResult id r = showNoteResult id r' := by
  have e : ∀ (x : HttpResponse NoteJson), x.ok = false →
      showNoteResult id x =
        Except.ok ("Note " ++ toString id ++ " not found.") := by
    intro x hx
    unfold showNoteResult
    rw [hx]
    rfl
  exact ⟨e r h, (e r h).trans (e r' h').symm⟩

/-- Witness for C10: a 404 response with no JSON body and a 500 response with
a JSON note body, both non-ok, yield the identical message
`Note 7 not found.`. -/
theorem shownote_nonok_witness :
    (HttpResponse.mk false 404 (none : Option NoteJson)).ok = false ∧
    (HttpResponse.mk false 500 (some (NoteJson.mk "t" "b" []))).ok = false ∧
    showNoteResult 7 (HttpResponse.mk false 404 (none : Option NoteJson)) =
      Except.ok "Note 7 not found." ∧
    showNoteResult 7 (HttpResponse.mk false 404 (none : Option NoteJson)) =
      showNoteResult 7 (HttpResponse.mk false 500 (some (NoteJson.mk "t" "b" []))) := by
  have h := shownote_nonok 7 (HttpResponse.mk false 404 (none : Option NoteJson))
    (HttpResponse.mk false 500 (some (NoteJson.mk "t" "b" []))) rfl rfl
  exact ⟨rfl, rfl, h.1.trans rfl, h.2⟩

/-- C4: the later schema revision's single ALTER TABLE statement names its
new column with the unquoted SQLite reserved keyword `references`, so SQLite
(which backs Cloudflare D1) rejects the statement with a syntax error:
applying the revision to a store created with the initial schema fails
outright instead of adding the column additively. -/
theorem migration_references_rejected :
    alterAccepted migration0002 = false ∧
    asciiUpper migration0002.column ∈ sqliteReservedKeywords ∧
    migration0002.columnQuoted = false := by
  refine ⟨by decide, by decide, rfl⟩

end Veta
